import Mathlib

/-!
Verification of the particle/constraint physics simulation in `src/main.rs`
(box-physics-rs).

The source advances a set of `Point`s (position, velocity, friction, radius,
mass) and pairwise distance `Constraint`s once per tick, chaining the Bevy
systems `apply_velocities`, `compute_boundaries`, `compute_constraints`,
`update_positions` in that order (see `main`, lines 26-27 of `src/main.rs`).

Modelling choices:
* `f32` scalars are modelled as exact rationals (`ℚ`), the usual idealisation
  of floating-point arithmetic.
* The only non-rational operation the source performs is the Euclidean
  distance `Vec2::distance`, a square root.  Every definition is therefore
  parameterised by the square-root function `sqrtFn : ℚ → ℚ`; theorems that
  hold for every `sqrtFn` in particular hold for the true square root.  For
  concrete evaluation we instantiate `sqrtFn` with `ratSqrt`, which agrees
  with the exact square root on perfect squares, and all concrete inputs are
  chosen so that every distance that arises is a perfect square of a rational.
* Bevy `Entity` identifiers become indices into a `List Point`;
  `Query::get_many_mut [a, b]` succeeds exactly when both indices denote
  existing particles and are distinct, which is the semantics of
  `constraint_points_mut!` in the source.
-/

namespace BoxPhysics

/-- A 2-D vector over exact rationals, modelling Bevy's `Vec2`. -/
@[ext]
structure Vec2 where
  x : ℚ
  y : ℚ
  deriving DecidableEq, Repr

instance : Add Vec2 := ⟨fun a b => ⟨a.x + b.x, a.y + b.y⟩⟩
instance : Sub Vec2 := ⟨fun a b => ⟨a.x - b.x, a.y - b.y⟩⟩
instance : Neg Vec2 := ⟨fun a => ⟨-a.x, -a.y⟩⟩

/-- Componentwise access of a sum. -/
@[simp] theorem Vec2.add_x (a b : Vec2) : (a + b).x = a.x + b.x := rfl

@[simp] theorem Vec2.add_y (a b : Vec2) : (a + b).y = a.y + b.y := rfl

@[simp] theorem Vec2.sub_x (a b : Vec2) : (a - b).x = a.x - b.x := rfl

@[simp] theorem Vec2.sub_y (a b : Vec2) : (a - b).y = a.y - b.y := rfl

@[simp] theorem Vec2.neg_x (a : Vec2) : (-a).x = -a.x := rfl

@[simp] theorem Vec2.neg_y (a : Vec2) : (-a).y = -a.y := rfl

/-- Scalar multiplication `v * q` of Bevy's `Vec2` by an `f32`. -/
def Vec2.scale (v : Vec2) (q : ℚ) : Vec2 := ⟨v.x * q, v.y * q⟩

@[simp] theorem Vec2.scale_x (v : Vec2) (q : ℚ) : (v.scale q).x = v.x * q := rfl

@[simp] theorem Vec2.scale_y (v : Vec2) (q : ℚ) : (v.scale q).y = v.y * q := rfl

/-- Constant `pub const PHYSICS_ITERS: u8 = 4;`. -/
def PHYSICS_ITERS : ℕ := 4

/-- Constant `pub const PHYSICS_DT: f32 = 1.0 / 60.0;`. -/
def PHYSICS_DT : ℚ := 1 / 60

/-- The `Point` component of `src/main.rs` (lines 32-40). -/
@[ext]
structure Point where
  position : Vec2
  velocity : Vec2
  friction : ℚ
  radius : ℚ
  mass : ℚ
  deriving DecidableEq, Repr

/-- Method `Point::future_position` (lines 42-46): `self.position + self.velocity`. -/
def future_position (p : Point) : Vec2 := p.position + p.velocity

/-- The `Constraint` component of `src/main.rs` (lines 48-55); the two
`Entity` references become indices into the particle list. -/
structure Constraint where
  point_a : ℕ
  point_b : ℕ
  length : ℚ
  strength : ℚ
  deriving DecidableEq, Repr

/-- The primary window, of which `compute_boundaries` reads `width`/`height`. -/
structure Window where
  width : ℚ
  height : ℚ
  deriving DecidableEq, Repr

/-- Euclidean distance `a.distance(b)` of Bevy's `Vec2`, with the square
root abstracted as `sqrtFn`. -/
def vdist (sqrtFn : ℚ → ℚ) (a b : Vec2) : ℚ :=
  sqrtFn ((b.x - a.x) ^ 2 + (b.y - a.y) ^ 2)

/-- Fuel-driven integer square root (largest `k` with `k * k ≤ n`), written
with structural recursion so that the kernel can evaluate it. -/
def intSqrtGo (n : ℕ) : ℕ → ℕ → ℕ
  | 0, k => k
  | fuel + 1, k => if (k + 1) * (k + 1) ≤ n then intSqrtGo n fuel (k + 1) else k

/-- Integer square root: the largest `k` with `k * k ≤ n`. -/
def intSqrt (n : ℕ) : ℕ := intSqrtGo n n 0

/-- A computable square-root function on `ℚ`, exact whenever the input is the
square of a rational (numerator and denominator perfect squares); only such
inputs are ever used in concrete evaluations below. -/
def ratSqrt (q : ℚ) : ℚ := (intSqrt q.num.toNat : ℚ) / (intSqrt q.den : ℚ)

/-- System `apply_velocities` (lines 108-112): `point.position += point.velocity`
for every particle.  Note: no `dt` factor appears in the source. -/
def apply_velocities (ps : List Point) : List Point :=
  ps.map fun p => { p with position := p.position + p.velocity }

/-- The loop body of `compute_boundaries` (lines 120-152) for one particle.
The source writes a `pos_effect` copy and `bounce_x`/`bounce_y` flags and
copies `pos_effect` back when either flag is set; since `pos_effect` differs
from `position` exactly on the axes whose flag is set, this is equivalently
expressed per field below.  When both the `< -width2` and `> width2` tests
fire (possible only for a negative half-extent) the later `> width2` write
wins, which the nesting order of the conditionals reproduces. -/
def bound_point (width height : ℚ) (p : Point) : Point :=
  let width2 := width / 2 - p.radius
  let height2 := height / 2 - p.radius
  let r : ℚ := -1
  { p with
    position :=
      ⟨if p.position.x > width2 then width2
        else if p.position.x < -width2 then -width2 else p.position.x,
       if p.position.y > height2 then height2
        else if p.position.y < -height2 then -height2 else p.position.y⟩,
    velocity :=
      ⟨if p.position.x < -width2 ∨ p.position.x > width2 then p.velocity.x * r
        else p.velocity.x,
       if p.position.y < -height2 ∨ p.position.y > height2 then p.velocity.y * r
        else p.velocity.y⟩ }

/-- System `compute_boundaries` (lines 114-154).  The system does nothing when the
primary-window query fails (`if let Ok(window)`), hence the `Option`. -/
def compute_boundaries (win : Option Window) (ps : List Point) : List Point :=
  match win with
  | none => ps
  | some w => ps.map (bound_point w.width w.height)

/-- The body of the constraint loop in `compute_constraints` (lines 162-174)
for one constraint.  `constraint_points_mut!` wraps `Query::get_many_mut`,
which fails (and the body is skipped, silently) unless both indices denote
existing particles and are distinct. -/
def solve_constraint (sqrtFn : ℚ → ℚ) (c : Constraint) (ps : List Point) :
    List Point :=
  if h : c.point_a ≠ c.point_b ∧ c.point_a < ps.length ∧ c.point_b < ps.length then
    let point_a := ps.get ⟨c.point_a, h.2.1⟩
    let point_b := ps.get ⟨c.point_b, h.2.2⟩
    let pos_a := future_position point_a
    let pos_b := future_position point_b
    let delta := pos_b - pos_a
    let distance := vdist sqrtFn pos_a pos_b
    let diff := (c.length - distance) / distance * c.strength * 2
    let offset := (delta.scale diff).scale 0.5
    let effect_a := (1 / point_a.mass) / ((1 / point_a.mass) + (1 / point_b.mass))
    let effect_b := 1 - effect_a
    (ps.set c.point_a { point_a with velocity := point_a.velocity - offset.scale effect_a }).set
      c.point_b { point_b with velocity := point_b.velocity + offset.scale effect_b }
  else ps

/-- One pass of the inner `for constraint in constraint_query.iter()` loop of
`compute_constraints`, in constraint-store order. -/
def constraint_pass (sqrtFn : ℚ → ℚ) (cs : List Constraint) (ps : List Point) :
    List Point :=
  cs.foldl (fun s c => solve_constraint sqrtFn c s) ps

/-- System `compute_constraints` (lines 156-177): `PHYSICS_ITERS` passes over all
constraints. -/
def compute_constraints (sqrtFn : ℚ → ℚ) (cs : List Constraint)
    (ps : List Point) : List Point :=
  (constraint_pass sqrtFn cs)^[PHYSICS_ITERS] ps

/-- The loop body of `update_positions` (lines 179-185) for one particle:
`velocity = point.velocity * point.friction; position += velocity;
point.velocity = velocity`. -/
def update_point (p : Point) : Point :=
  let velocity := p.velocity.scale p.friction
  { p with position := p.position + velocity, velocity := velocity }

/-- System `update_positions` (lines 179-185). -/
def update_positions (ps : List Point) : List Point :=
  ps.map update_point

/-- One physics tick, i.e. the chained system order of `main`
(lines 26-27): `apply_velocities`, `compute_boundaries`,
`compute_constraints`, `update_positions`. -/
def tick (sqrtFn : ℚ → ℚ) (win : Option Window) (cs : List Constraint)
    (ps : List Point) : List Point :=
  update_positions (compute_constraints sqrtFn cs (compute_boundaries win (apply_velocities ps)))

/-- The divisor of the `diff` computation of `compute_constraints`
(line 167) for one constraint: `some` of the distance between the two future
positions when the constraint is processed, `none` when `get_many_mut`
fails.  The source divides by this value unconditionally whenever it is
`some`. -/
def constraint_divisor (sqrtFn : ℚ → ℚ) (c : Constraint) (ps : List Point) :
    Option ℚ :=
  if h : c.point_a ≠ c.point_b ∧ c.point_a < ps.length ∧ c.point_b < ps.length then
    some (vdist sqrtFn (future_position (ps.get ⟨c.point_a, h.2.1⟩))
      (future_position (ps.get ⟨c.point_b, h.2.2⟩)))
  else none

/-- Modelled from the spec's words for comparison with the source (claim C2):
the solver step with `delta = position_b − position_a` and
`distance = |delta|` computed from the *stored positions*, exactly as the
spec states them, everything else as in `solve_constraint`.  The source
instead computes both from `future_position` (position + velocity). -/
def solve_constraint_claim (sqrtFn : ℚ → ℚ) (c : Constraint) (ps : List Point) :
    List Point :=
  if h : c.point_a ≠ c.point_b ∧ c.point_a < ps.length ∧ c.point_b < ps.length then
    let point_a := ps.get ⟨c.point_a, h.2.1⟩
    let point_b := ps.get ⟨c.point_b, h.2.2⟩
    let pos_a := point_a.position
    let pos_b := point_b.position
    let delta := pos_b - pos_a
    let distance := vdist sqrtFn pos_a pos_b
    let diff := (c.length - distance) / distance * c.strength * 2
    let offset := (delta.scale diff).scale 0.5
    let effect_a := (1 / point_a.mass) / ((1 / point_a.mass) + (1 / point_b.mass))
    let effect_b := 1 - effect_a
    (ps.set c.point_a { point_a with velocity := point_a.velocity - offset.scale effect_a }).set
      c.point_b { point_b with velocity := point_b.velocity + offset.scale effect_b }
  else ps

/-- Modelled from the spec's words for comparison with the source (claim C4):
the per-tick flow `Integrator → Constraint Solver → Boundary Resolver`, i.e.
boundary resolution after the constraint passes.  The source's `main` chains
`compute_boundaries` *before* `compute_constraints`. -/
def tick_spec_order (sqrtFn : ℚ → ℚ) (win : Option Window)
    (cs : List Constraint) (ps : List Point) : List Point :=
  update_positions (compute_boundaries win (compute_constraints sqrtFn cs (apply_velocities ps)))

/-- Modelled from the spec's words for comparison with the source (claim C5):
the semi-implicit Euler integrator `position += velocity * dt`.  The
source's `apply_velocities` adds the raw velocity, with no `dt` factor. -/
def euler_claim_step (dt : ℚ) (p : Point) : Point :=
  { p with position := p.position + p.velocity.scale dt }

/-- The fault diagnostics surfaced by a tick.  The source's systems return
nothing and keep no fault log: `constraint_points_mut!` silently drops the
`Err` of `get_many_mut` (`if let Ok`), so the list of constraint indices a
tick reports as skipped is empty by construction. -/
def tick_diagnostics (_cs : List Constraint) (_ps : List Point) : List ℕ := []

/-- A particle is inside the domain of `compute_boundaries`: within the
half-extent (half the window size minus the particle radius) on both axes;
trivially true when there is no primary window, in which case the system
does nothing. -/
def in_bounds (win : Option Window) (p : Point) : Prop :=
  match win with
  | none => True
  | some w =>
      -(w.width / 2 - p.radius) ≤ p.position.x ∧ p.position.x ≤ w.width / 2 - p.radius ∧
      -(w.height / 2 - p.radius) ≤ p.position.y ∧ p.position.y ≤ w.height / 2 - p.radius

instance : (win : Option Window) → (p : Point) → Decidable (in_bounds win p)
  | none, _ => isTrue trivial
  | some _, _ => inferInstanceAs (Decidable (_ ∧ _ ∧ _ ∧ _))

/-! ## Helper lemmas -/

theorem Vec2.add_zero_vec (v : Vec2) : v + (⟨0, 0⟩ : Vec2) = v := by
  ext <;> simp

theorem Vec2.scale_one (v : Vec2) : v.scale 1 = v := by
  ext <;> simp

theorem Vec2.scale_scale (v : Vec2) (a b : ℚ) :
    (v.scale a).scale b = v.scale (a * b) := by
  ext <;> simp [mul_assoc]

theorem update_point_friction_iterate (p : Point) (n : ℕ) :
    (update_point^[n] p).friction = p.friction := by
  induction n with
  | zero => rfl
  | succ n ih => rw [Function.iterate_succ_apply']; exact ih

/-- The x-coordinate written by `compute_boundaries` for one particle. -/
theorem bound_point_position_x (width height : ℚ) (p : Point) :
    (bound_point width height p).position.x =
      if p.position.x > width / 2 - p.radius then width / 2 - p.radius
      else if p.position.x < -(width / 2 - p.radius) then -(width / 2 - p.radius)
      else p.position.x := rfl

theorem bound_point_position_y (width height : ℚ) (p : Point) :
    (bound_point width height p).position.y =
      if p.position.y > height / 2 - p.radius then height / 2 - p.radius
      else if p.position.y < -(height / 2 - p.radius) then -(height / 2 - p.radius)
      else p.position.y := rfl

theorem bound_point_velocity_x (width height : ℚ) (p : Point) :
    (bound_point width height p).velocity.x =
      if p.position.x < -(width / 2 - p.radius) ∨ p.position.x > width / 2 - p.radius
      then p.velocity.x * (-1) else p.velocity.x := rfl

theorem bound_point_velocity_y (width height : ℚ) (p : Point) :
    (bound_point width height p).velocity.y =
      if p.position.y < -(height / 2 - p.radius) ∨ p.position.y > height / 2 - p.radius
      then p.velocity.y * (-1) else p.velocity.y := rfl

theorem bound_point_friction (width height : ℚ) (p : Point) :
    (bound_point width height p).friction = p.friction := rfl

theorem bound_point_radius (width height : ℚ) (p : Point) :
    (bound_point width height p).radius = p.radius := rfl

theorem bound_point_mass (width height : ℚ) (p : Point) :
    (bound_point width height p).mass = p.mass := rfl

theorem Vec2.scale_zero_vec (a : ℚ) : (⟨0, 0⟩ : Vec2).scale a = ⟨0, 0⟩ := by
  ext <;> simp

theorem Vec2.scale_ne_zero (v : Vec2) (q : ℚ) (hq : q ≠ 0) (hv : v ≠ ⟨0, 0⟩) :
    v.scale q ≠ ⟨0, 0⟩ := by
  intro h
  apply hv
  have hx := congrArg Vec2.x h
  have hy := congrArg Vec2.y h
  simp [hq] at hx hy
  exact Vec2.ext hx hy

/-- Evaluating `solve_constraint` on a two-particle store with the constraint `(0, 1)`,
written out in closed form. -/
theorem solve_constraint_two (sqrtFn : ℚ → ℚ) (len s : ℚ) (pa pb : Point) :
    solve_constraint sqrtFn ⟨0, 1, len, s⟩ [pa, pb] =
      [{ pa with
          velocity := pa.velocity -
            (((future_position pb - future_position pa).scale
                ((len - vdist sqrtFn (future_position pa) (future_position pb)) /
                    vdist sqrtFn (future_position pa) (future_position pb) * s * 2)).scale
              0.5).scale
              ((1 / pa.mass) / ((1 / pa.mass) + (1 / pb.mass))) },
       { pb with
          velocity := pb.velocity +
            (((future_position pb - future_position pa).scale
                ((len - vdist sqrtFn (future_position pa) (future_position pb)) /
                    vdist sqrtFn (future_position pa) (future_position pb) * s * 2)).scale
              0.5).scale
              (1 - (1 / pa.mass) / ((1 / pa.mass) + (1 / pb.mass))) }] := by
  have hcond : ((⟨0, 1, len, s⟩ : Constraint).point_a ≠ (⟨0, 1, len, s⟩ : Constraint).point_b ∧
      (⟨0, 1, len, s⟩ : Constraint).point_a < [pa, pb].length ∧
      (⟨0, 1, len, s⟩ : Constraint).point_b < [pa, pb].length) :=
    ⟨by show (0 : ℕ) ≠ 1; decide, by show (0 : ℕ) < 2; decide, by show (1 : ℕ) < 2; decide⟩
  unfold solve_constraint
  rw [dif_pos hcond]
  rfl

/-- A particle inside the domain is untouched by `compute_boundaries`. -/
theorem bound_point_eq_self (w : Window) (p : Point) (h : in_bounds (some w) p) :
    bound_point w.width w.height p = p := by
  obtain ⟨h1, h2, h3, h4⟩ := h
  ext
  · rw [bound_point_position_x, if_neg (not_lt.mpr h2), if_neg (not_lt.mpr h1)]
  · rw [bound_point_position_y, if_neg (not_lt.mpr h4), if_neg (not_lt.mpr h3)]
  · rw [bound_point_velocity_x, if_neg (by push_neg; exact ⟨h1, h2⟩)]
  · rw [bound_point_velocity_y, if_neg (by push_neg; exact ⟨h3, h4⟩)]
  · rfl
  · rfl
  · rfl

theorem list_set_self {α : Type _} : ∀ (l : List α) (i : ℕ) (h : i < l.length),
    l.set i (l.get ⟨i, h⟩) = l
  | _ :: _, 0, _ => rfl
  | a :: l, i + 1, h => congrArg (List.cons a) (list_set_self l i (Nat.lt_of_succ_lt_succ h))

theorem length_solve_constraint (sqrtFn : ℚ → ℚ) (c : Constraint) (ps : List Point) :
    (solve_constraint sqrtFn c ps).length = ps.length := by
  unfold solve_constraint
  split
  · simp
  · rfl

theorem length_constraint_pass (sqrtFn : ℚ → ℚ) (cs : List Constraint) :
    ∀ ps : List Point, (constraint_pass sqrtFn cs ps).length = ps.length := by
  induction cs with
  | nil => intro ps; rfl
  | cons c cs ih =>
      intro ps
      show (constraint_pass sqrtFn cs (solve_constraint sqrtFn c ps)).length = ps.length
      rw [ih, length_solve_constraint]

/-- Since `get_many_mut` fails on an out-of-range particle id, so the constraint's
body is skipped and the store is untouched. -/
theorem solve_constraint_invalid (sqrtFn : ℚ → ℚ) (c : Constraint) (ps : List Point)
    (h : ps.length ≤ c.point_a ∨ ps.length ≤ c.point_b) :
    solve_constraint sqrtFn c ps = ps := by
  have hnc : ¬(c.point_a ≠ c.point_b ∧ c.point_a < ps.length ∧ c.point_b < ps.length) := by
    rintro ⟨-, ha, hb⟩
    rcases h with h | h
    · exact absurd ha (not_lt.mpr h)
    · exact absurd hb (not_lt.mpr h)
  unfold solve_constraint
  rw [dif_neg hnc]

theorem constraint_pass_skip (sqrtFn : ℚ → ℚ) (cs1 cs2 : List Constraint)
    (c : Constraint) (ps : List Point)
    (h : ps.length ≤ c.point_a ∨ ps.length ≤ c.point_b) :
    constraint_pass sqrtFn (cs1 ++ c :: cs2) ps = constraint_pass sqrtFn (cs1 ++ cs2) ps := by
  unfold constraint_pass
  rw [List.foldl_append, List.foldl_append, List.foldl_cons,
    solve_constraint_invalid sqrtFn c _ (by
      rw [show (List.foldl (fun s c => solve_constraint sqrtFn c s) ps cs1).length = ps.length
        from length_constraint_pass sqrtFn cs1 ps]
      exact h)]

/-- A `with velocity :=` update leaves `f` unchanged, so mapping `f` over a
solver step is the identity on the mapped list. -/
theorem solve_constraint_map {β : Type _} (f : Point → β)
    (hf : ∀ (p : Point) (v : Vec2), f { p with velocity := v } = f p)
    (sqrtFn : ℚ → ℚ) (c : Constraint) (ps : List Point) :
    (solve_constraint sqrtFn c ps).map f = ps.map f := by
  have hgm : ∀ (i : ℕ) (h : i < ps.length),
      f (ps.get ⟨i, h⟩) = (ps.map f).get ⟨i, by simpa using h⟩ := fun i h => by simp
  unfold solve_constraint
  split
  case isTrue hcond =>
    rw [List.map_set, List.map_set]
    simp only [hf]
    rw [hgm _ hcond.2.1, hgm _ hcond.2.2, list_set_self, list_set_self]
  case isFalse => rfl

theorem constraint_pass_map {β : Type _} (f : Point → β)
    (hf : ∀ (p : Point) (v : Vec2), f { p with velocity := v } = f p)
    (sqrtFn : ℚ → ℚ) (cs : List Constraint) :
    ∀ ps : List Point, (constraint_pass sqrtFn cs ps).map f = ps.map f := by
  induction cs with
  | nil => intro ps; rfl
  | cons c cs ih =>
      intro ps
      show (constraint_pass sqrtFn cs (solve_constraint sqrtFn c ps)).map f = ps.map f
      rw [ih, solve_constraint_map f hf]

theorem compute_constraints_map {β : Type _} (f : Point → β)
    (hf : ∀ (p : Point) (v : Vec2), f { p with velocity := v } = f p)
    (sqrtFn : ℚ → ℚ) (cs : List Constraint) (ps : List Point) :
    (compute_constraints sqrtFn cs ps).map f = ps.map f := by
  unfold compute_constraints
  generalize PHYSICS_ITERS = n
  induction n with
  | zero => rfl
  | succ n ih => rw [Function.iterate_succ_apply', constraint_pass_map f hf, ih]

/-! ## Claims -/

/-- C1 (code bug): the claim (and the spec, three times over) demands an
explicit `distance == 0` guard so that a constraint whose endpoints coincide
is skipped with no division by zero; the source has no such guard.
`constraint_divisor` is the divisor of line 167's
`(constraint.length - distance) / distance`: for two particles at the same
position joined by a constraint it is `some 0`, i.e. the constraint is
processed (`get_many_mut` succeeds) and the code divides by zero.  (In `f32`
this yields `±inf` and then `0 * inf = NaN` velocities, not a skip.) -/
theorem C1_division_by_zero_on_coincident_endpoints :
    constraint_divisor ratSqrt ⟨0, 1, 100, 1⟩
        [⟨⟨0, 0⟩, ⟨0, 0⟩, 1, 10, 10⟩, ⟨⟨0, 0⟩, ⟨0, 0⟩, 1, 10, 10⟩] = some 0 := by
  with_unfolding_all rfl

/-- C4 (amended): the tick's phases run in the order `apply_velocities`
(integrator), `compute_boundaries` (boundary resolver), then
`compute_constraints` (constraint solver, `PHYSICS_ITERS` passes), then
`update_positions` — i.e. boundary clamping and reflection happen *before*
the constraint-solving passes of the same tick, not after them as the claim
states. -/
theorem C4_phase_order (sqrtFn : ℚ → ℚ) (win : Option Window)
    (cs : List Constraint) (ps : List Point) :
    tick sqrtFn win cs ps =
      update_positions
        (compute_constraints sqrtFn cs (compute_boundaries win (apply_velocities ps))) := rfl

set_option maxRecDepth 100000 in
/-- C4 counterexample: a two-particle system at rest length 100 with one
particle beyond the boundary.  Under the source's order the particle is
clamped first, the constraint then sees a stretched pair and corrects
velocities; under the claimed order (solver before boundary) the constraint
is already satisfied and nothing moves but the clamp.  The results differ. -/
theorem C4_counterexample :
    tick ratSqrt (some ⟨220, 220⟩) [⟨0, 1, 100, 1⟩]
        [⟨⟨150, 0⟩, ⟨0, 0⟩, 1, 10, 10⟩, ⟨⟨50, 0⟩, ⟨0, 0⟩, 1, 10, 10⟩] ≠
      tick_spec_order ratSqrt (some ⟨220, 220⟩) [⟨0, 1, 100, 1⟩]
        [⟨⟨150, 0⟩, ⟨0, 0⟩, 1, 10, 10⟩, ⟨⟨50, 0⟩, ⟨0, 0⟩, 1, 10, 10⟩] :=
  of_decide_eq_true (by with_unfolding_all rfl)

/-- C5 (amended): in the source the integrator `apply_velocities` advances
`position += velocity` with **no** `dt` factor, and the tick's final
`update_positions` phase adds `velocity * friction` to the position a second
time; so over one tick (no constraints, no window) the position gains
`velocity + velocity * friction`, and the stored velocity becomes
`velocity * friction`. -/
theorem C5_velocity_enters_position_twice (sqrtFn : ℚ → ℚ) (p : Point) :
    tick sqrtFn none [] [p] =
      [⟨p.position + p.velocity + p.velocity.scale p.friction,
        p.velocity.scale p.friction, p.friction, p.radius, p.mass⟩] := rfl

/-- C5 counterexample: a single particle at the origin with velocity
`(60, 0)` and friction 1, no constraints, no window.  The claim (position
advanced exactly once, by `velocity * PHYSICS_DT`) would put it at
`(1, 0)`; the source's tick puts it at `(120, 0)` (velocity added twice,
never scaled by `dt`). -/
theorem C5_counterexample :
    (tick ratSqrt none [] [⟨⟨0, 0⟩, ⟨60, 0⟩, 1, 10, 10⟩]).map Point.position = [⟨120, 0⟩] ∧
    (euler_claim_step PHYSICS_DT ⟨⟨0, 0⟩, ⟨60, 0⟩, 1, 10, 10⟩).position = ⟨1, 0⟩ ∧
    (⟨120, 0⟩ : Vec2) ≠ ⟨1, 0⟩ :=
  of_decide_eq_true (by with_unfolding_all rfl)

/-- C10: `update_positions` first scales each particle's velocity by its
friction coefficient, then both adds the scaled value to the position and
stores it back as the new velocity; consequently iterating the phase scales
the stored velocity by `friction ^ n` (geometric decay for friction < 1). -/
theorem C10_update_positions_formula (ps : List Point) (p : Point) (n : ℕ) :
    update_positions ps =
      ps.map (fun q =>
        { q with
          position := q.position + q.velocity.scale q.friction,
          velocity := q.velocity.scale q.friction }) ∧
    (update_point^[n] p).velocity = p.velocity.scale (p.friction ^ n) := by
  refine ⟨rfl, ?_⟩
  induction n with
  | zero => rw [Function.iterate_zero_apply, pow_zero, Vec2.scale_one]
  | succ n ih =>
      rw [Function.iterate_succ_apply']
      show (update_point^[n] p).velocity.scale (update_point^[n] p).friction = _
      rw [update_point_friction_iterate, ih, Vec2.scale_scale, pow_succ]

/-- C6: per axis independently, a coordinate beyond the half-extent
(half the window size minus the particle radius) is clamped exactly to the
bound and the matching velocity component is multiplied by the restitution
coefficient `-1.0`; both axes may trigger in the same tick (corner contact),
and an axis whose coordinate is within bounds is left untouched.  (The
negative-side case assumes a nonnegative half-extent, as produced by any
window wider than the particle.) -/
theorem C6_boundary_reflection (width height : ℚ) (p : Point) :
    (p.position.x > width / 2 - p.radius →
      (bound_point width height p).position.x = width / 2 - p.radius ∧
      (bound_point width height p).velocity.x = -p.velocity.x) ∧
    (0 ≤ width / 2 - p.radius → p.position.x < -(width / 2 - p.radius) →
      (bound_point width height p).position.x = -(width / 2 - p.radius) ∧
      (bound_point width height p).velocity.x = -p.velocity.x) ∧
    (-(width / 2 - p.radius) ≤ p.position.x → p.position.x ≤ width / 2 - p.radius →
      (bound_point width height p).position.x = p.position.x ∧
      (bound_point width height p).velocity.x = p.velocity.x) ∧
    (p.position.y > height / 2 - p.radius →
      (bound_point width height p).position.y = height / 2 - p.radius ∧
      (bound_point width height p).velocity.y = -p.velocity.y) ∧
    (0 ≤ height / 2 - p.radius → p.position.y < -(height / 2 - p.radius) →
      (bound_point width height p).position.y = -(height / 2 - p.radius) ∧
      (bound_point width height p).velocity.y = -p.velocity.y) ∧
    (-(height / 2 - p.radius) ≤ p.position.y → p.position.y ≤ height / 2 - p.radius →
      (bound_point width height p).position.y = p.position.y ∧
      (bound_point width height p).velocity.y = p.velocity.y) ∧
    (p.position.x > width / 2 - p.radius → p.position.y > height / 2 - p.radius →
      bound_point width height p =
        { p with
          position := ⟨width / 2 - p.radius, height / 2 - p.radius⟩,
          velocity := ⟨-p.velocity.x, -p.velocity.y⟩ }) := by
  refine ⟨fun hx => ?_, fun h0 hx => ?_, fun h1 h2 => ?_,
    fun hy => ?_, fun h0 hy => ?_, fun h1 h2 => ?_, fun hx hy => ?_⟩
  · rw [bound_point_position_x, bound_point_velocity_x, if_pos hx, if_pos (Or.inr hx)]
    exact ⟨rfl, mul_neg_one _⟩
  · have hnx : ¬ p.position.x > width / 2 - p.radius := by linarith
    rw [bound_point_position_x, bound_point_velocity_x, if_neg hnx, if_pos hx,
      if_pos (Or.inl hx)]
    exact ⟨rfl, mul_neg_one _⟩
  · have hnx : ¬ p.position.x > width / 2 - p.radius := not_lt.mpr h2
    have hnx2 : ¬ p.position.x < -(width / 2 - p.radius) := not_lt.mpr h1
    rw [bound_point_position_x, bound_point_velocity_x, if_neg hnx, if_neg hnx2,
      if_neg (by push_neg; exact ⟨h1, h2⟩)]
    exact ⟨rfl, rfl⟩
  · rw [bound_point_position_y, bound_point_velocity_y, if_pos hy, if_pos (Or.inr hy)]
    exact ⟨rfl, mul_neg_one _⟩
  · have hny : ¬ p.position.y > height / 2 - p.radius := by linarith
    rw [bound_point_position_y, bound_point_velocity_y, if_neg hny, if_pos hy,
      if_pos (Or.inl hy)]
    exact ⟨rfl, mul_neg_one _⟩
  · have hny : ¬ p.position.y > height / 2 - p.radius := not_lt.mpr h2
    have hny2 : ¬ p.position.y < -(height / 2 - p.radius) := not_lt.mpr h1
    rw [bound_point_position_y, bound_point_velocity_y, if_neg hny, if_neg hny2,
      if_neg (by push_neg; exact ⟨h1, h2⟩)]
    exact ⟨rfl, rfl⟩
  · ext
    · rw [bound_point_position_x, if_pos hx]
    · rw [bound_point_position_y, if_pos hy]
    · rw [bound_point_velocity_x, if_pos (Or.inr hx)]; exact mul_neg_one _
    · rw [bound_point_velocity_y, if_pos (Or.inr hy)]; exact mul_neg_one _
    · rw [bound_point_friction]
    · rw [bound_point_radius]
    · rw [bound_point_mass]

/-- C2 (amended): for a constraint whose endpoints exist, are distinct and
are at nonzero distance, the solver step computes
`delta = future_position_b − future_position_a` (the *predicted* positions
`position + velocity`, not the stored positions the claim names),
`diff = (rest_length − distance) / distance * strength * 2` (the ×2
velocity-mode multiplier), `offset = delta * diff * 0.5`,
`effect_a = (1/mass_a) / (1/mass_a + 1/mass_b)`, `effect_b = 1 − effect_a`,
and applies `velocity_a -= offset * effect_a`,
`velocity_b += offset * effect_b`. -/
theorem C2_velocity_update_formula (sqrtFn : ℚ → ℚ) (c : Constraint)
    (ps : List Point) (hab : c.point_a ≠ c.point_b) (ha : c.point_a < ps.length)
    (hb : c.point_b < ps.length) (pa pb : Point)
    (hpa : ps.get ⟨c.point_a, ha⟩ = pa) (hpb : ps.get ⟨c.point_b, hb⟩ = pb)
    (d : ℚ) (hdist : d = vdist sqrtFn (future_position pa) (future_position pb))
    (hd : d ≠ 0) (delta : Vec2)
    (hdelta : delta = future_position pb - future_position pa) (offset : Vec2)
    (hoffset : offset = (delta.scale ((c.length - d) / d * c.strength * 2)).scale 0.5) :
    solve_constraint sqrtFn c ps =
      (ps.set c.point_a
        { pa with
          velocity := pa.velocity -
            offset.scale ((1 / pa.mass) / ((1 / pa.mass) + (1 / pb.mass))) }).set
        c.point_b
        { pb with
          velocity := pb.velocity +
            offset.scale (1 - (1 / pa.mass) / ((1 / pa.mass) + (1 / pb.mass))) } := by
  subst hpa hpb hdist hdelta hoffset
  unfold solve_constraint
  rw [dif_pos ⟨hab, ha, hb⟩]

/-- C2 witness: two particles of mass 10 at `(0,0)` and `(30,40)` (distance
50) joined by a constraint of rest length 100 and strength 1: one solver
step sets the velocities to `(-15,-20)` and `(15,20)`. -/
theorem C2_witness :
    (vdist ratSqrt (future_position ⟨⟨0, 0⟩, ⟨0, 0⟩, 1, 10, 10⟩)
        (future_position ⟨⟨30, 40⟩, ⟨0, 0⟩, 1, 10, 10⟩) ≠ 0) ∧
    solve_constraint ratSqrt ⟨0, 1, 100, 1⟩
        [⟨⟨0, 0⟩, ⟨0, 0⟩, 1, 10, 10⟩, ⟨⟨30, 40⟩, ⟨0, 0⟩, 1, 10, 10⟩] =
      [⟨⟨0, 0⟩, ⟨-15, -20⟩, 1, 10, 10⟩, ⟨⟨30, 40⟩, ⟨15, 20⟩, 1, 10, 10⟩] := by
  have hd : vdist ratSqrt (future_position ⟨⟨0, 0⟩, ⟨0, 0⟩, 1, 10, 10⟩)
      (future_position ⟨⟨30, 40⟩, ⟨0, 0⟩, 1, 10, 10⟩) ≠ 0 :=
    of_decide_eq_true (by with_unfolding_all rfl)
  refine ⟨hd, ?_⟩
  have h := C2_velocity_update_formula ratSqrt ⟨0, 1, 100, 1⟩
    [⟨⟨0, 0⟩, ⟨0, 0⟩, 1, 10, 10⟩, ⟨⟨30, 40⟩, ⟨0, 0⟩, 1, 10, 10⟩]
    (by decide) (by decide) (by decide)
    ⟨⟨0, 0⟩, ⟨0, 0⟩, 1, 10, 10⟩ ⟨⟨30, 40⟩, ⟨0, 0⟩, 1, 10, 10⟩ rfl rfl
    (vdist ratSqrt (future_position ⟨⟨0, 0⟩, ⟨0, 0⟩, 1, 10, 10⟩)
      (future_position ⟨⟨30, 40⟩, ⟨0, 0⟩, 1, 10, 10⟩)) rfl hd _ rfl _ rfl
  rw [h]
  with_unfolding_all rfl

set_option maxRecDepth 100000 in
/-- C2 counterexample: with a nonzero velocity on one endpoint, the source's
step (which measures `delta`/`distance` between *future* positions,
`position + velocity`) and the claim's formulas (which use the stored
positions) give different results. -/
theorem C2_counterexample :
    solve_constraint ratSqrt ⟨0, 1, 100, 1⟩
        [⟨⟨0, 0⟩, ⟨0, 0⟩, 1, 10, 10⟩, ⟨⟨200, 0⟩, ⟨100, 0⟩, 1, 10, 10⟩] ≠
      solve_constraint_claim ratSqrt ⟨0, 1, 100, 1⟩
        [⟨⟨0, 0⟩, ⟨0, 0⟩, 1, 10, 10⟩, ⟨⟨200, 0⟩, ⟨100, 0⟩, 1, 10, 10⟩] :=
  of_decide_eq_true (by with_unfolding_all rfl)

/-- C3: for two particles joined by one constraint, separated from the rest
length (and at nonzero distance, strength nonzero — otherwise no correction
at all is applied), one solver iteration applies velocity corrections that
are opposite in direction with magnitudes in inverse proportion to the
masses, via `effect_a = (1/mass_a) / (1/mass_a + 1/mass_b)` and
`effect_b = 1 − effect_a`: mass-weighted momentum balance
`Δv_a·m_a + Δv_b·m_b = 0`, equal masses receive exactly opposite
corrections, and with masses 1 and 9 the mass-1 particle's correction is
`-9` times the mass-9 particle's (9× the magnitude, opposite direction);
both corrections are nonzero. -/
theorem C3_mass_weighted_split (sqrtFn : ℚ → ℚ) (pa pb : Point) (len s : ℚ)
    (hma : 0 < pa.mass) (hmb : 0 < pb.mass)
    (hd : vdist sqrtFn (future_position pa) (future_position pb) ≠ 0)
    (hdl : vdist sqrtFn (future_position pa) (future_position pb) ≠ len)
    (hs : s ≠ 0)
    (hdelta : future_position pb - future_position pa ≠ ⟨0, 0⟩) :
    ∃ pa' pb',
      constraint_pass sqrtFn [⟨0, 1, len, s⟩] [pa, pb] = [pa', pb'] ∧
      (pa'.velocity - pa.velocity).scale pa.mass +
        (pb'.velocity - pb.velocity).scale pb.mass = ⟨0, 0⟩ ∧
      (pa.mass = pb.mass → pa'.velocity - pa.velocity = -(pb'.velocity - pb.velocity)) ∧
      (pa.mass = 1 → pb.mass = 9 →
        pa'.velocity - pa.velocity = (pb'.velocity - pb.velocity).scale (-9)) ∧
      pa'.velocity - pa.velocity ≠ ⟨0, 0⟩ ∧
      pb'.velocity - pb.velocity ≠ ⟨0, 0⟩ := by
  have hma0 : pa.mass ≠ 0 := ne_of_gt hma
  have hmb0 : pb.mass ≠ 0 := ne_of_gt hmb
  set d := vdist sqrtFn (future_position pa) (future_position pb) with hd_def
  set delta := future_position pb - future_position pa with hdelta_def
  set diff := (len - d) / d * s * 2 with hdiff_def
  set offset := (delta.scale diff).scale 0.5 with hoffset_def
  set Ea := (1 / pa.mass) / ((1 / pa.mass) + (1 / pb.mass)) with hEa_def
  have h1a : 0 < 1 / pa.mass := one_div_pos.mpr hma
  have h1b : 0 < 1 / pb.mass := one_div_pos.mpr hmb
  have hK : 0 < (1 / pa.mass) + (1 / pb.mass) := add_pos h1a h1b
  have hK0 : (1 / pa.mass) + (1 / pb.mass) ≠ 0 := ne_of_gt hK
  have hEa_pos : 0 < Ea := hEa_def ▸ div_pos h1a hK
  have hEb : 1 - Ea = (1 / pb.mass) / ((1 / pa.mass) + (1 / pb.mass)) := by
    rw [hEa_def]
    field_simp
  have hEb_pos : 0 < 1 - Ea := hEb ▸ div_pos h1b hK
  have hdiff0 : diff ≠ 0 := by
    rw [hdiff_def]
    exact mul_ne_zero
      (mul_ne_zero (div_ne_zero (sub_ne_zero.mpr (Ne.symm hdl)) hd) hs) two_ne_zero
  have hoffset0 : offset ≠ ⟨0, 0⟩ := by
    rw [hoffset_def]
    exact Vec2.scale_ne_zero _ _ (by norm_num) (Vec2.scale_ne_zero _ _ hdiff0 hdelta)
  refine ⟨{ pa with velocity := pa.velocity - offset.scale Ea },
    { pb with velocity := pb.velocity + offset.scale (1 - Ea) },
    solve_constraint_two sqrtFn len s pa pb, ?_, ?_, ?_, ?_, ?_⟩
  · apply Vec2.ext <;> (simp; rw [hEa_def]; field_simp; ring)
  · intro hm
    apply Vec2.ext <;> simp <;> rw [hEa_def, hm] <;> try field_simp
  · intro h1 h9
    apply Vec2.ext <;> simp <;> rw [hEa_def, h1, h9] <;> norm_num <;> try ring
  · have heq : ({ pa with velocity := pa.velocity - offset.scale Ea } : Point).velocity -
        pa.velocity = (offset.scale Ea).scale (-1) := by
      apply Vec2.ext <;> simp
    rw [heq]
    exact Vec2.scale_ne_zero _ _ (by norm_num)
      (Vec2.scale_ne_zero _ _ (ne_of_gt hEa_pos) hoffset0)
  · have heq : ({ pb with velocity := pb.velocity + offset.scale (1 - Ea) } : Point).velocity -
        pb.velocity = offset.scale (1 - Ea) := by
      apply Vec2.ext <;> simp
    rw [heq]
    exact Vec2.scale_ne_zero _ _ (ne_of_gt hEb_pos) hoffset0

/-- C3 witness: masses 1 and 9 at `(0,0)` and `(30,40)` (distance 50), rest
length 100, strength 1: the solver corrections exist, balance
mass-weighted momentum, and the mass-1 correction is `-9` times the mass-9
one. -/
theorem C3_witness :
    ((0 : ℚ) < 1) ∧
    (∃ pa' pb',
      constraint_pass ratSqrt [⟨0, 1, 100, 1⟩]
          [⟨⟨0, 0⟩, ⟨0, 0⟩, 1, 10, 1⟩, ⟨⟨30, 40⟩, ⟨0, 0⟩, 1, 10, 9⟩] = [pa', pb'] ∧
      (pa'.velocity - (⟨⟨0, 0⟩, ⟨0, 0⟩, 1, 10, 1⟩ : Point).velocity).scale
          (⟨⟨0, 0⟩, ⟨0, 0⟩, 1, 10, 1⟩ : Point).mass +
        (pb'.velocity - (⟨⟨30, 40⟩, ⟨0, 0⟩, 1, 10, 9⟩ : Point).velocity).scale
          (⟨⟨30, 40⟩, ⟨0, 0⟩, 1, 10, 9⟩ : Point).mass = ⟨0, 0⟩ ∧
      ((⟨⟨0, 0⟩, ⟨0, 0⟩, 1, 10, 1⟩ : Point).mass = (⟨⟨30, 40⟩, ⟨0, 0⟩, 1, 10, 9⟩ : Point).mass →
        pa'.velocity - (⟨⟨0, 0⟩, ⟨0, 0⟩, 1, 10, 1⟩ : Point).velocity =
          -(pb'.velocity - (⟨⟨30, 40⟩, ⟨0, 0⟩, 1, 10, 9⟩ : Point).velocity)) ∧
      ((⟨⟨0, 0⟩, ⟨0, 0⟩, 1, 10, 1⟩ : Point).mass = 1 →
        (⟨⟨30, 40⟩, ⟨0, 0⟩, 1, 10, 9⟩ : Point).mass = 9 →
        pa'.velocity - (⟨⟨0, 0⟩, ⟨0, 0⟩, 1, 10, 1⟩ : Point).velocity =
          (pb'.velocity - (⟨⟨30, 40⟩, ⟨0, 0⟩, 1, 10, 9⟩ : Point).velocity).scale (-9)) ∧
      pa'.velocity - (⟨⟨0, 0⟩, ⟨0, 0⟩, 1, 10, 1⟩ : Point).velocity ≠ ⟨0, 0⟩ ∧
      pb'.velocity - (⟨⟨30, 40⟩, ⟨0, 0⟩, 1, 10, 9⟩ : Point).velocity ≠ ⟨0, 0⟩) := by
  refine ⟨one_pos, C3_mass_weighted_split ratSqrt
    ⟨⟨0, 0⟩, ⟨0, 0⟩, 1, 10, 1⟩ ⟨⟨30, 40⟩, ⟨0, 0⟩, 1, 10, 9⟩ 100 1
    one_pos ?_ ?_ ?_ ?_ ?_⟩
  · exact of_decide_eq_true (by with_unfolding_all rfl)
  · exact of_decide_eq_true (by with_unfolding_all rfl)
  · exact of_decide_eq_true (by with_unfolding_all rfl)
  · exact of_decide_eq_true (by with_unfolding_all rfl)
  · exact of_decide_eq_true (by with_unfolding_all rfl)

/-- C7 (amended): with zero constraints and zero velocities, a full tick
leaves every position unchanged *provided each particle is inside the
boundary domain* (or there is no window).  The proviso is forced by the
counterexample below: `compute_boundaries` clamps an out-of-bounds particle
even at rest, which the claim as stated overlooks. -/
theorem C7_rest_state_in_bounds (sqrtFn : ℚ → ℚ) (win : Option Window)
    (ps : List Point) (hv : ∀ p ∈ ps, p.velocity = ⟨0, 0⟩)
    (hb : ∀ p ∈ ps, in_bounds win p) :
    (tick sqrtFn win [] ps).map Point.position = ps.map Point.position := by
  have hav : apply_velocities ps = ps := by
    have h : ∀ p ∈ ps, ({ p with position := p.position + p.velocity } : Point) = id p :=
      fun p hp => by
        rw [hv p hp, Vec2.add_zero_vec]
        exact Point.ext rfl (hv p hp).symm rfl rfl rfl
    rw [apply_velocities, List.map_congr_left h, List.map_id]
  have hcb : compute_boundaries win ps = ps := by
    cases win with
    | none => rfl
    | some w =>
        have h : ∀ p ∈ ps, bound_point w.width w.height p = id p :=
          fun p hp => bound_point_eq_self w p (hb p hp)
        rw [compute_boundaries, List.map_congr_left h, List.map_id]
  have hcc : compute_constraints sqrtFn [] ps = ps := rfl
  unfold tick
  rw [hav, hcb, hcc, update_positions, List.map_map]
  exact List.map_congr_left fun p hp => by
    show p.position + p.velocity.scale p.friction = p.position
    rw [hv p hp, Vec2.scale_zero_vec, Vec2.add_zero_vec]

/-- C7 witness: a single in-bounds particle at rest in a 220×220 window
keeps its position over a full tick. -/
theorem C7_witness :
    (tick ratSqrt (some ⟨220, 220⟩) [] [⟨⟨50, 0⟩, ⟨0, 0⟩, 1, 10, 10⟩]).map Point.position =
      List.map Point.position [(⟨⟨50, 0⟩, ⟨0, 0⟩, 1, 10, 10⟩ : Point)] :=
  C7_rest_state_in_bounds ratSqrt (some ⟨220, 220⟩) [⟨⟨50, 0⟩, ⟨0, 0⟩, 1, 10, 10⟩]
    (of_decide_eq_true (by with_unfolding_all rfl))
    (of_decide_eq_true (by with_unfolding_all rfl))

/-- C7 counterexample: a particle at rest at `(400, 0)` (outside the
220×220 window's half-extent 100), with zero constraints and zero velocity,
is moved to `(100, 0)` by the tick — the claim as stated, which has no
in-bounds proviso, is false. -/
theorem C7_counterexample :
    (∀ p ∈ [(⟨⟨400, 0⟩, ⟨0, 0⟩, 1, 10, 10⟩ : Point)], p.velocity = (⟨0, 0⟩ : Vec2)) ∧
    (tick ratSqrt (some ⟨220, 220⟩) [] [⟨⟨400, 0⟩, ⟨0, 0⟩, 1, 10, 10⟩]).map Point.position =
      [⟨100, 0⟩] ∧
    (⟨100, 0⟩ : Vec2) ≠ ⟨400, 0⟩ :=
  of_decide_eq_true (by with_unfolding_all rfl)

/-- C8 (amended): a constraint referencing a particle id with no existing
particle is skipped — silently — for the whole tick: the solver's result is
exactly what it would be with that constraint removed from the store, so
every other constraint is still solved and no particle state is touched by
the faulted constraint.  (The "surfaced in the tick's diagnostics" part of
the claim is false: the source reports nothing, see the counterexample.) -/
theorem C8_missing_id_constraint_skipped (sqrtFn : ℚ → ℚ)
    (cs1 cs2 : List Constraint) (c : Constraint) (ps : List Point)
    (h : ps.length ≤ c.point_a ∨ ps.length ≤ c.point_b) :
    compute_constraints sqrtFn (cs1 ++ c :: cs2) ps =
      compute_constraints sqrtFn (cs1 ++ cs2) ps := by
  unfold compute_constraints
  suffices hn : ∀ n (qs : List Point), qs.length = ps.length →
      (constraint_pass sqrtFn (cs1 ++ c :: cs2))^[n] qs =
        (constraint_pass sqrtFn (cs1 ++ cs2))^[n] qs from hn PHYSICS_ITERS ps rfl
  intro n
  induction n with
  | zero => intro qs _; rfl
  | succ n ih =>
      intro qs hq
      rw [Function.iterate_succ_apply, Function.iterate_succ_apply,
        constraint_pass_skip sqrtFn cs1 cs2 c qs (by rw [hq]; exact h)]
      exact ih _ (by rw [length_constraint_pass, hq])

/-- C8 witness: with two particles, a valid constraint `(0,1)` and a faulted
constraint `(0,5)` (particle 5 does not exist), the solver's result equals
the result with the faulted constraint removed. -/
theorem C8_witness :
    ([(⟨⟨0, 0⟩, ⟨0, 0⟩, 1, 10, 10⟩ : Point), ⟨⟨50, 0⟩, ⟨0, 0⟩, 1, 10, 10⟩].length ≤
      (⟨0, 5, 100, 1⟩ : Constraint).point_b) ∧
    compute_constraints ratSqrt ([⟨0, 1, 100, 1⟩] ++ ⟨0, 5, 100, 1⟩ :: [])
        [⟨⟨0, 0⟩, ⟨0, 0⟩, 1, 10, 10⟩, ⟨⟨50, 0⟩, ⟨0, 0⟩, 1, 10, 10⟩] =
      compute_constraints ratSqrt ([⟨0, 1, 100, 1⟩] ++ [])
        [⟨⟨0, 0⟩, ⟨0, 0⟩, 1, 10, 10⟩, ⟨⟨50, 0⟩, ⟨0, 0⟩, 1, 10, 10⟩] :=
  ⟨by decide,
    C8_missing_id_constraint_skipped ratSqrt [⟨0, 1, 100, 1⟩] [] ⟨0, 5, 100, 1⟩
      [⟨⟨0, 0⟩, ⟨0, 0⟩, 1, 10, 10⟩, ⟨⟨50, 0⟩, ⟨0, 0⟩, 1, 10, 10⟩] (Or.inr (by decide))⟩

/-- C8 counterexample (to the diagnostics part of the claim): the faulted
constraint `(0,5)` over a two-particle store is skipped silently — the tick
surfaces no diagnostics at all (`tick_diagnostics` is empty by construction,
because the source keeps no fault log), and the store is untouched. -/
theorem C8_counterexample :
    tick_diagnostics [⟨0, 5, 100, 1⟩]
        [⟨⟨0, 0⟩, ⟨0, 0⟩, 1, 10, 10⟩, ⟨⟨50, 0⟩, ⟨0, 0⟩, 1, 10, 10⟩] = [] ∧
    compute_constraints ratSqrt [⟨0, 5, 100, 1⟩]
        [⟨⟨0, 0⟩, ⟨0, 0⟩, 1, 10, 10⟩, ⟨⟨50, 0⟩, ⟨0, 0⟩, 1, 10, 10⟩] =
      [⟨⟨0, 0⟩, ⟨0, 0⟩, 1, 10, 10⟩, ⟨⟨50, 0⟩, ⟨0, 0⟩, 1, 10, 10⟩] :=
  ⟨rfl, of_decide_eq_true (by with_unfolding_all rfl)⟩

/-- C9: the constraint-solver phase (`compute_constraints`, all its
iterations) writes only the `velocity` field: every particle's `position`,
`mass`, `radius` and `friction` are identical before and after the phase. -/
theorem C9_solver_modifies_only_velocity (sqrtFn : ℚ → ℚ)
    (cs : List Constraint) (ps : List Point) :
    (compute_constraints sqrtFn cs ps).map Point.position = ps.map Point.position ∧
    (compute_constraints sqrtFn cs ps).map Point.mass = ps.map Point.mass ∧
    (compute_constraints sqrtFn cs ps).map Point.radius = ps.map Point.radius ∧
    (compute_constraints sqrtFn cs ps).map Point.friction = ps.map Point.friction :=
  ⟨compute_constraints_map Point.position (fun _ _ => rfl) sqrtFn cs ps,
   compute_constraints_map Point.mass (fun _ _ => rfl) sqrtFn cs ps,
   compute_constraints_map Point.radius (fun _ _ => rfl) sqrtFn cs ps,
   compute_constraints_map Point.friction (fun _ _ => rfl) sqrtFn cs ps⟩

/-- C6 witness: a corner contact.  A particle of radius 10 at `(150, 150)`
with velocity `(3, 4)` in a 220×220 window (half-extent 100 on both axes) is
clamped to `(100, 100)` with velocity `(-3, -4)`. -/
theorem C6_witness :
    ((150 : ℚ) > 220 / 2 - 10) ∧
    bound_point 220 220 ⟨⟨150, 150⟩, ⟨3, 4⟩, 1, 10, 10⟩ =
      ⟨⟨100, 100⟩, ⟨-3, -4⟩, 1, 10, 10⟩ := by
  have hx : ((150 : ℚ) > 220 / 2 - 10) := of_decide_eq_true (by with_unfolding_all rfl)
  have h :=
    (C6_boundary_reflection 220 220 ⟨⟨150, 150⟩, ⟨3, 4⟩, 1, 10, 10⟩).2.2.2.2.2.2 hx hx
  refine ⟨hx, ?_⟩
  rw [h]
  with_unfolding_all rfl

end BoxPhysics
